import Mathlib

/-!
Verification development for the MQTT connection-state and
subscription-consistency engine of the Home Assistant MQTT component
(homeassistant/components/mqtt/__init__.py).

The shallow embedding models the mutable state of the MQTT client object
(the topics and progress Python dicts) as association lists with unique
keys, the transport library as an explicit send function returning a
result code and a message id, the paho callbacks as state-transition
functions, and the blocking reconnect loop as a function from the list of
reconnect-attempt outcomes to the list of backoff waits it performs.
-/

namespace MqttVerify

/-! ## Association-list dictionaries

Python dict operations used by the source, modelled on ordered
association lists (insertion order preserved, as in Python 3.6+ dicts).
-/

/-- Lookup in a dict: the Python expression d[k] / k in d. -/
def dictGet {α β : Type} [DecidableEq α] (k : α) : List (α × β) → Option β
  | [] => none
  | (k1, v) :: rest => if k1 = k then some v else dictGet k rest

/-- Assignment d[k] = v: replaces the value in place if the key exists,
otherwise appends the new binding at the end, as a Python dict does. -/
def dictInsert {α β : Type} [DecidableEq α] (k : α) (v : β) : List (α × β) → List (α × β)
  | [] => [(k, v)]
  | (k1, v1) :: rest =>
      if k1 = k then (k, v) :: rest else (k1, v1) :: dictInsert k v rest

/-- The Python call d.pop(k, None): returns the removed value (or none)
together with the remaining dict. -/
def dictPop {α β : Type} [DecidableEq α] (k : α) : List (α × β) → Option β × List (α × β)
  | [] => (none, [])
  | (k1, v) :: rest =>
      if k1 = k then (some v, rest)
      else
        let r := dictPop k rest
        (r.1, (k1, v) :: r.2)

/-! ## Client state

The MQTT object keeps two dicts: self.topics maps a subscribed topic to
its granted QoS (None while the subscribe is pending), and self.progress
maps an in-flight message id to its topic.
-/

/-- The mutable bookkeeping state of the MQTT client object. -/
structure MqttState where
  topics : List (String × Option Nat)
  progress : List (Nat × String)
  deriving DecidableEq

/-! ## Topic matching (_match_topic) -/

/-- Python s.split(sep) for a one-character separator, on the character
list underlying the string. -/
def pySplit (sep : Char) : List Char → List (List Char)
  | [] => [[]]
  | c :: rest =>
      let r := pySplit sep rest
      if c = sep then [] :: r
      else
        match r with
        | [] => [[c]]
        | seg :: segs => (c :: seg) :: segs

/-- Python s[: len(s) - n] (the slice s[:-n]), clamped at the empty string
exactly as Python clamps negative-start slices. -/
def pyDropRight (s : List Char) (n : Nat) : List Char :=
  s.take (s.length - n)

/-- Translation of _match_topic(subscription, topic), working on the
character lists of the two strings. -/
def matchTopicChars (subscription topic : List Char) : Bool :=
  if List.isSuffixOf ['#'] subscription then
    (pyDropRight subscription 2 == topic) ||
      List.isPrefixOf (pyDropRight subscription 1) topic
  else
    let sub_parts := pySplit '/' subscription
    let topic_parts := pySplit '/' topic
    sub_parts.length == topic_parts.length &&
      (sub_parts.zip topic_parts).all (fun ab => ab.1 == ['+'] || ab.1 == ab.2)

/-- Test if topic matches subscription (source function _match_topic). -/
def match_topic (subscription topic : String) : Bool :=
  matchTopicChars subscription.data topic.data

/-! ## Subscribe and unsubscribe

The transport (paho client) calls mqttc.subscribe(topic, qos) and
mqttc.unsubscribe(topic) return a pair (result, mid) synchronously; they
are modelled as explicit function arguments. _raise_on_error raises
HomeAssistantError on a nonzero result; the raise is modelled by the err
flag, set before any bookkeeping mutation would have happened. The sent
flag records whether a request reached the transport at all.
-/

/-- Outcome of one async_subscribe / async_unsubscribe call: the state
after the call, whether a request was sent to the transport, and whether
a HomeAssistantError was raised. -/
structure CallResult where
  state : MqttState
  sent : Bool
  err : Bool
  deriving DecidableEq

/-- Source function _raise_on_error: an error is raised iff the result
code is nonzero. -/
def raise_on_error (result : Nat) : Bool :=
  result != 0

/-- Translation of MQTT.async_subscribe(topic, qos): a no-op if the topic
already has any record, otherwise send, raise on a nonzero send result
(leaving the state untouched), else record the pending operation and the
unconfirmed subscription. -/
def async_subscribe (send : String → Nat → Nat × Nat) (st : MqttState)
    (topic : String) (qos : Nat) : CallResult :=
  if (dictGet topic st.topics).isSome then
    { state := st, sent := false, err := false }
  else
    let r := send topic qos
    if raise_on_error r.1 then
      { state := st, sent := true, err := true }
    else
      { state :=
          { topics := dictInsert topic none st.topics,
            progress := dictInsert r.2 topic st.progress },
        sent := true, err := false }

/-- Translation of MQTT.async_unsubscribe(topic): sends unconditionally,
raises on a nonzero send result (state untouched), else records the
pending operation; the topics dict is not touched here. -/
def async_unsubscribe (send : String → Nat × Nat) (st : MqttState)
    (topic : String) : CallResult :=
  let r := send topic
  if raise_on_error r.1 then
    { state := st, sent := true, err := true }
  else
    { state := { st with progress := dictInsert r.2 topic st.progress },
      sent := true, err := false }

/-! ## Acknowledgement callbacks -/

/-- Translation of MQTT._mqtt_on_subscribe(mid, granted_qos): pop the
pending operation; if the mid was not pending, return unchanged;
otherwise record granted_qos[0] for the topic. The Python indexing
granted_qos[0] raises IndexError on an empty list, modelled by none. -/
def mqtt_on_subscribe (st : MqttState) (mid : Nat) (granted_qos : List Nat) :
    Option MqttState :=
  let p := dictPop mid st.progress
  match p.1 with
  | none => some st
  | some topic =>
      match granted_qos with
      | [] => none
      | q :: _ =>
          some { topics := dictInsert topic (some q) st.topics, progress := p.2 }

/-- Translation of MQTT._mqtt_on_unsubscribe(mid, granted_qos): pop the
pending operation; if found, drop the topic from the subscription set. -/
def mqtt_on_unsubscribe (st : MqttState) (mid : Nat) : MqttState :=
  let p := dictPop mid st.progress
  match p.1 with
  | none => st
  | some topic => { topics := (dictPop topic st.topics).2, progress := p.2 }

/-! ## Connect callback -/

/-- Translation of the accepted branch of MQTT._mqtt_on_connect: keep only
the topics whose value is None (still in the process of subscribing), and
schedule an async_subscribe job for every topic of the old dict whose qos
is not None. Returns the new state and the scheduled (topic, qos) jobs in
iteration order. On a rejected connection (result code other than
CONNACK_ACCEPTED = 0) the client disconnects and nothing else happens. -/
def mqtt_on_connect (st : MqttState) (result_code : Nat) :
    MqttState × List (String × Nat) :=
  if result_code ≠ 0 then (st, [])
  else
    ({ st with topics := st.topics.filter (fun kv => kv.2.isNone) },
     st.topics.filterMap (fun kv =>
       match kv.2 with
       | some q => some (kv.1, q)
       | none => none))

/-- Runs the resubscribe jobs scheduled by the on-connect callback through
the normal subscribe path, returning the final state and the list of
topics for which a subscribe request was actually sent. -/
def run_resubscribes (send : String → Nat → Nat × Nat) :
    MqttState → List (String × Nat) → MqttState × List String
  | st, [] => (st, [])
  | st, (t, q) :: rest =>
      let r := async_subscribe send st t q
      let rec1 := run_resubscribes send r.state rest
      (rec1.1, if r.sent then t :: rec1.2 else rec1.2)

/-! ## Disconnect callback and reconnect loop -/

/-- MAX_RECONNECT_WAIT = 300 seconds. -/
def MAX_RECONNECT_WAIT : Nat := 300

/-- The state cleanup at the top of MQTT._mqtt_on_disconnect: progress is
reset to an empty dict; the topics dict is rebuilt keeping only entries
whose value is not None, and then a second (redundant in the source) pass
removes entries whose value is None. -/
def mqtt_on_disconnect_cleanup (st : MqttState) : MqttState :=
  let topics1 := st.topics.filter (fun kv => kv.2.isSome)
  let topics2 := topics1.filter (fun kv => kv.2.isSome)
  { topics := topics2, progress := [] }

/-- The reconnect loop of MQTT._mqtt_on_disconnect, parametrised by the
outcomes of the successive mqttc.reconnect() attempts (true when the
attempt returns 0, false when it returns nonzero or raises socket.error).
Starting from the local counter tries, it returns the list of backoff
waits performed: the loop breaks on the first success without waiting,
and after each failure waits min(2 ^ tries, MAX_RECONNECT_WAIT) seconds
and increments tries. -/
def reconnect_waits : Nat → List Bool → List Nat
  | _, [] => []
  | _, true :: _ => []
  | tries, false :: rest =>
      min (2 ^ tries) MAX_RECONNECT_WAIT :: reconnect_waits (tries + 1) rest

/-- Full result of the on-disconnect callback: the cleaned-up state,
whether the reconnect loop was entered, and the backoff waits it slept. -/
structure DisconnectResult where
  state : MqttState
  entersLoop : Bool
  waits : List Nat
  deriving DecidableEq

/-- Translation of MQTT._mqtt_on_disconnect(result_code): always run the
cleanup; when the disconnect was caller-initiated (result code 0) return
at once, otherwise enter the reconnect loop, whose local tries counter
starts at 0 on every invocation. -/
def mqtt_on_disconnect (st : MqttState) (result_code : Nat)
    (outcomes : List Bool) : DisconnectResult :=
  let st1 := mqtt_on_disconnect_cleanup st
  if result_code = 0 then
    { state := st1, entersLoop := false, waits := [] }
  else
    { state := st1, entersLoop := true, waits := reconnect_waits 0 outcomes }

/-! ## Message callback

msg.payload.decode(utf-8) is modelled by a strict UTF-8 decoder on the
raw byte list, rejecting truncated sequences, stray continuation bytes,
overlong encodings, surrogate code points and code points above 0x10FFFF,
as the strict Python codec does.
-/

/-- Whether a byte is a UTF-8 continuation byte (0x80..0xBF). -/
def isCont (b : Nat) : Bool :=
  0x80 ≤ b && b < 0xC0

/-- Strict UTF-8 decoding of a byte list into code points; none on any
malformed input. -/
def utf8Decode : List Nat → Option (List Nat)
  | [] => some []
  | b0 :: rest =>
      if b0 < 0x80 then
        (utf8Decode rest).map (fun tl => b0 :: tl)
      else if b0 < 0xC2 then
        none
      else if b0 < 0xE0 then
        match rest with
        | b1 :: rest1 =>
            if isCont b1 then
              (utf8Decode rest1).map (fun tl => ((b0 - 0xC0) * 0x40 + (b1 - 0x80)) :: tl)
            else none
        | _ => none
      else if b0 < 0xF0 then
        match rest with
        | b1 :: b2 :: rest2 =>
            if isCont b1 && isCont b2 then
              let cp := (b0 - 0xE0) * 0x1000 + (b1 - 0x80) * 0x40 + (b2 - 0x80)
              if cp < 0x800 || (0xD800 ≤ cp && cp < 0xE000) then none
              else (utf8Decode rest2).map (fun tl => cp :: tl)
            else none
        | _ => none
      else if b0 < 0xF5 then
        match rest with
        | b1 :: b2 :: b3 :: rest3 =>
            if isCont b1 && isCont b2 && isCont b3 then
              let cp := (b0 - 0xF0) * 0x40000 + (b1 - 0x80) * 0x1000 +
                (b2 - 0x80) * 0x40 + (b3 - 0x80)
              if cp < 0x10000 || 0x10FFFF < cp then none
              else (utf8Decode rest3).map (fun tl => cp :: tl)
            else none
        | _ => none
      else none

/-- The payload of the event fired on the Home Assistant bus for one
received MQTT message: topic, decoded payload (as code points), qos. -/
structure MqttEvent where
  topic : String
  payload : List Nat
  qos : Nat
  deriving DecidableEq

/-- Translation of MQTT._mqtt_on_message(msg): on a UnicodeDecodeError the
message is logged and dropped (no event, no propagated error); otherwise
exactly one EVENT_MQTT_MESSAGE_RECEIVED event is fired carrying the
topic, the decoded payload and the qos. Returns the fired events. -/
def mqtt_on_message (topic : String) (rawPayload : List Nat) (qos : Nat) :
    List MqttEvent :=
  match utf8Decode rawPayload with
  | none => []
  | some text => [{ topic := topic, payload := text, qos := qos }]

/-! ## Dictionary lemmas -/

theorem dictGet_eq_none_of_not_mem {α β : Type} [DecidableEq α] {k : α}
    {d : List (α × β)} (h : k ∉ d.map Prod.fst) : dictGet k d = none := by
  induction d with
  | nil => rfl
  | cons kv rest ih =>
      simp only [List.map_cons, List.mem_cons] at h
      push_neg at h
      simp only [dictGet, if_neg (Ne.symm h.1), ih h.2]

theorem dictGet_some_mem {α β : Type} [DecidableEq α] {k : α} {v : β}
    {d : List (α × β)} (h : dictGet k d = some v) : (k, v) ∈ d := by
  induction d with
  | nil => simp [dictGet] at h
  | cons kv rest ih =>
      obtain ⟨ka, va⟩ := kv
      simp only [dictGet] at h
      by_cases he : ka = k
      · rw [if_pos he] at h
        injection h with h
        subst he
        subst h
        exact List.mem_cons_self _ _
      · rw [if_neg he] at h
        exact List.mem_cons_of_mem _ (ih h)

theorem dictGet_filter {α β : Type} [DecidableEq α] (p : α × β → Bool)
    {d : List (α × β)} (hnd : (d.map Prod.fst).Nodup) (k : α) :
    dictGet k (d.filter p) =
      (dictGet k d).bind (fun v => if p (k, v) then some v else none) := by
  induction d with
  | nil => rfl
  | cons kv rest ih =>
      obtain ⟨ka, va⟩ := kv
      simp only [List.map_cons, List.nodup_cons] at hnd
      have ih2 := ih hnd.2
      by_cases hp : p (ka, va) = true
      · rw [List.filter_cons_of_pos hp]
        by_cases he : ka = k
        · subst he
          simp [dictGet, hp]
        · simp only [dictGet, if_neg he]
          exact ih2
      · rw [List.filter_cons_of_neg hp]
        by_cases he : ka = k
        · subst he
          have hrest : dictGet ka rest = none := dictGet_eq_none_of_not_mem hnd.1
          rw [ih2, hrest]
          simp [dictGet, hp]
        · simp only [dictGet, if_neg he]
          exact ih2

theorem dictGet_dictInsert_self {α β : Type} [DecidableEq α] (k : α) (v : β)
    (d : List (α × β)) : dictGet k (dictInsert k v d) = some v := by
  induction d with
  | nil => simp [dictInsert, dictGet]
  | cons kv rest ih =>
      obtain ⟨ka, va⟩ := kv
      by_cases he : ka = k
      · subst he
        simp [dictInsert, dictGet]
      · simp only [dictInsert, if_neg he, dictGet, if_neg he]
        exact ih

theorem dictGet_dictInsert_ne {α β : Type} [DecidableEq α] {k k1 : α} (v : β)
    (d : List (α × β)) (h : k1 ≠ k) :
    dictGet k1 (dictInsert k v d) = dictGet k1 d := by
  have h2 : ¬ k = k1 := fun he => h he.symm
  induction d with
  | nil => simp [dictInsert, dictGet, h2]
  | cons kv rest ih =>
      obtain ⟨ka, va⟩ := kv
      by_cases he : ka = k
      · subst he
        simp only [dictInsert, if_pos rfl, dictGet, if_neg h2]
      · simp only [dictInsert, if_neg he, dictGet]
        by_cases h1 : ka = k1
        · rw [if_pos h1, if_pos h1]
        · rw [if_neg h1, if_neg h1]
          exact ih

theorem dictInsert_fresh {α β : Type} [DecidableEq α] {k : α} (v : β)
    {d : List (α × β)} (h : dictGet k d = none) :
    dictInsert k v d = d ++ [(k, v)] := by
  induction d with
  | nil => rfl
  | cons kv rest ih =>
      obtain ⟨ka, va⟩ := kv
      simp only [dictGet] at h
      by_cases he : ka = k
      · rw [if_pos he] at h
        exact absurd h (by simp)
      · rw [if_neg he] at h
        simp only [dictInsert, if_neg he, List.cons_append, ih h]

theorem dictPop_fst {α β : Type} [DecidableEq α] (k : α) (d : List (α × β)) :
    (dictPop k d).1 = dictGet k d := by
  induction d with
  | nil => rfl
  | cons kv rest ih =>
      obtain ⟨ka, va⟩ := kv
      by_cases he : ka = k
      · simp [dictPop, dictGet, he]
      · simp only [dictPop, dictGet, if_neg he]
        exact ih

theorem dictPop_not_found {α β : Type} [DecidableEq α] {k : α}
    {d : List (α × β)} (h : dictGet k d = none) : dictPop k d = (none, d) := by
  induction d with
  | nil => rfl
  | cons kv rest ih =>
      obtain ⟨ka, va⟩ := kv
      simp only [dictGet] at h
      by_cases he : ka = k
      · rw [if_pos he] at h
        exact absurd h (by simp)
      · rw [if_neg he] at h
        simp [dictPop, if_neg he, ih h]

theorem dictGet_dictPop_snd_self {α β : Type} [DecidableEq α] {k : α}
    {d : List (α × β)} (hnd : (d.map Prod.fst).Nodup) :
    dictGet k (dictPop k d).2 = none := by
  induction d with
  | nil => rfl
  | cons kv rest ih =>
      obtain ⟨ka, va⟩ := kv
      simp only [List.map_cons, List.nodup_cons] at hnd
      by_cases he : ka = k
      · subst he
        simp only [dictPop, if_pos rfl]
        exact dictGet_eq_none_of_not_mem hnd.1
      · simp only [dictPop, if_neg he, dictGet, if_neg he]
        exact ih hnd.2

theorem dictGet_dictPop_snd_ne {α β : Type} [DecidableEq α] {k k1 : α}
    (d : List (α × β)) (h : k1 ≠ k) :
    dictGet k1 (dictPop k d).2 = dictGet k1 d := by
  have h2 : ¬ k = k1 := fun he => h he.symm
  induction d with
  | nil => rfl
  | cons kv rest ih =>
      obtain ⟨ka, va⟩ := kv
      by_cases he : ka = k
      · subst he
        simp [dictPop, dictGet, h2]
      · simp only [dictPop, if_neg he, dictGet]
        by_cases h1 : ka = k1
        · rw [if_pos h1, if_pos h1]
        · rw [if_neg h1, if_neg h1]
          exact ih

theorem keys_filter_nodup {α β : Type} (p : α × β → Bool) {d : List (α × β)}
    (hnd : (d.map Prod.fst).Nodup) : ((d.filter p).map Prod.fst).Nodup :=
  hnd.sublist ((List.filter_sublist d).map Prod.fst)

/-! ## Disconnect-handler lemmas -/

theorem mqtt_on_disconnect_state_eq (st : MqttState) (rc : Nat)
    (outcomes : List Bool) :
    (mqtt_on_disconnect st rc outcomes).state = mqtt_on_disconnect_cleanup st := by
  unfold mqtt_on_disconnect
  by_cases h : rc = 0 <;> simp [h]

theorem cleanup_topics_get (st : MqttState)
    (hnd : (st.topics.map Prod.fst).Nodup) (t : String) :
    dictGet t (mqtt_on_disconnect_cleanup st).topics =
      (dictGet t st.topics).bind (fun v => if v.isSome then some v else none) := by
  unfold mqtt_on_disconnect_cleanup
  dsimp only
  rw [dictGet_filter _ (keys_filter_nodup _ hnd), dictGet_filter _ hnd]
  cases dictGet t st.topics with
  | none => rfl
  | some v => cases v <;> simp

theorem reconnect_waits_get (outcomes : List Bool) (k n : Nat)
    (h : n < (reconnect_waits k outcomes).length) :
    (reconnect_waits k outcomes).get ⟨n, h⟩ =
      min (2 ^ (k + n)) MAX_RECONNECT_WAIT := by
  induction outcomes generalizing k n with
  | nil => simp [reconnect_waits] at h
  | cons b rest ih =>
      cases b with
      | true => simp [reconnect_waits] at h
      | false =>
          cases n with
          | zero => simp [reconnect_waits]
          | succ m =>
              have h2 : m < (reconnect_waits (k + 1) rest).length := by
                simpa [reconnect_waits] using h
              have hk : k + 1 + m = k + (m + 1) := by omega
              simp only [reconnect_waits, List.get_cons_succ]
              rw [ih (k + 1) m h2, hk]

/-! ## Claim theorems -/

/-- Claim C2: after the on-disconnect handler runs, for every prior state
and every disconnect reason code, the pending-operation map is empty,
every subscription whose grantedQoS was absent has been removed, and
every subscription with a confirmed grantedQoS is still present with its
grantedQoS retained. -/
theorem on_disconnect_registry_cleanup (st : MqttState) (rc : Nat)
    (outcomes : List Bool) (hnd : (st.topics.map Prod.fst).Nodup) :
    (mqtt_on_disconnect st rc outcomes).state.progress = [] ∧
    (∀ t, dictGet t st.topics = some none →
       dictGet t (mqtt_on_disconnect st rc outcomes).state.topics = none) ∧
    (∀ t q, dictGet t st.topics = some (some q) →
       dictGet t (mqtt_on_disconnect st rc outcomes).state.topics = some (some q)) := by
  rw [mqtt_on_disconnect_state_eq]
  refine ⟨rfl, ?_, ?_⟩
  · intro t ht
    rw [cleanup_topics_get st hnd t, ht]
    rfl
  · intro t q ht
    rw [cleanup_topics_get st hnd t, ht]
    rfl

theorem on_disconnect_registry_cleanup_witness :
    (mqtt_on_disconnect ⟨[("a", some 1), ("b", none)], [(5, "b")]⟩ 7 []).state.progress = [] ∧
    dictGet "b" (mqtt_on_disconnect ⟨[("a", some 1), ("b", none)], [(5, "b")]⟩ 7 []).state.topics = none ∧
    dictGet "a" (mqtt_on_disconnect ⟨[("a", some 1), ("b", none)], [(5, "b")]⟩ 7 []).state.topics = some (some 1) :=
  have h := on_disconnect_registry_cleanup
    ⟨[("a", some 1), ("b", none)], [(5, "b")]⟩ 7 [] (by decide)
  ⟨h.1, h.2.1 "b" (by decide), h.2.2 "a" 1 (by decide)⟩

/-- Claim C5: with MAX_RECONNECT_WAIT = 300, the wait performed before
retry number n of the reconnect loop is exactly min(2 ^ n, 300) seconds,
and since the attempt counter is a fresh local of every disconnect-handler
invocation, each invocation runs the loop with the counter starting again
at 0. -/
theorem backoff_schedule :
    MAX_RECONNECT_WAIT = 300 ∧
    (∀ outcomes : List Bool, ∀ n : Nat,
       ∀ h : n < (reconnect_waits 0 outcomes).length,
       (reconnect_waits 0 outcomes).get ⟨n, h⟩ = min (2 ^ n) MAX_RECONNECT_WAIT) ∧
    (∀ st rc outcomes, rc ≠ 0 →
       (mqtt_on_disconnect st rc outcomes).waits = reconnect_waits 0 outcomes) := by
  refine ⟨rfl, ?_, ?_⟩
  · intro outcomes n h
    simpa using reconnect_waits_get outcomes 0 n h
  · intro st rc outcomes h
    simp [mqtt_on_disconnect, h]

theorem backoff_schedule_witness :
    (reconnect_waits 0 [false, false, true]).get ⟨1, by decide⟩ =
      min (2 ^ 1) MAX_RECONNECT_WAIT ∧
    (mqtt_on_disconnect ⟨[], []⟩ 7 [true]).waits = reconnect_waits 0 [true] :=
  ⟨backoff_schedule.2.1 [false, false, true] 1 (by decide),
   backoff_schedule.2.2 ⟨[], []⟩ 7 [true] (by decide)⟩

/-- Claim C6: the on-disconnect handler never enters the reconnect loop
when the disconnect reason code is 0 and always enters it for a nonzero
reason code; in both cases the pending-operation and
unconfirmed-subscription cleanup runs first. -/
theorem disconnect_reconnect_gate (st : MqttState) (rc : Nat)
    (outcomes : List Bool) :
    (rc = 0 → (mqtt_on_disconnect st rc outcomes).entersLoop = false) ∧
    (rc ≠ 0 → (mqtt_on_disconnect st rc outcomes).entersLoop = true) ∧
    (mqtt_on_disconnect st rc outcomes).state = mqtt_on_disconnect_cleanup st := by
  refine ⟨?_, ?_, mqtt_on_disconnect_state_eq st rc outcomes⟩
  · intro h
    simp [mqtt_on_disconnect, h]
  · intro h
    simp [mqtt_on_disconnect, h]

theorem disconnect_reconnect_gate_witness :
    (mqtt_on_disconnect ⟨[], []⟩ 0 []).entersLoop = false ∧
    (mqtt_on_disconnect ⟨[], []⟩ 7 []).entersLoop = true :=
  ⟨(disconnect_reconnect_gate ⟨[], []⟩ 0 []).1 rfl,
   (disconnect_reconnect_gate ⟨[], []⟩ 7 []).2.1 (by decide)⟩

/-- Claim C7: the topic matcher returns exactly the specified values on
the six test vectors of the specification. -/
theorem match_topic_test_vectors :
    match_topic "a/#" "a/b/c" = true ∧
    match_topic "a/#" "a" = true ∧
    match_topic "a/+/c" "a/b/c" = true ∧
    match_topic "a/+/c" "a/b/x/c" = false ∧
    match_topic "a/b" "a/b/c" = false ∧
    match_topic "+/+" "a/b" = true := by
  decide

/-- Claim C9: for every inbound message, a payload that is not valid
UTF-8 is dropped with no event fired and no error propagated, and a
payload that decodes successfully produces exactly one event carrying the
topic, the decoded payload and the QoS. -/
theorem on_message_decode_spec (topic : String) (payload : List Nat) (qos : Nat) :
    (utf8Decode payload = none → mqtt_on_message topic payload qos = []) ∧
    (∀ text, utf8Decode payload = some text →
       mqtt_on_message topic payload qos =
         [{ topic := topic, payload := text, qos := qos }]) := by
  constructor
  · intro h
    simp [mqtt_on_message, h]
  · intro text h
    simp [mqtt_on_message, h]

theorem on_message_decode_spec_witness :
    mqtt_on_message "home/kitchen/temp" [0xFF, 0xFE] 0 = [] ∧
    mqtt_on_message "home/kitchen/temp" [0x32, 0x31] 1 =
      [{ topic := "home/kitchen/temp", payload := [0x32, 0x31], qos := 1 }] :=
  ⟨(on_message_decode_spec "home/kitchen/temp" [0xFF, 0xFE] 0).1 (by decide),
   (on_message_decode_spec "home/kitchen/temp" [0x32, 0x31] 1).2 [0x32, 0x31] (by decide)⟩

/-- Claim C10: when the transport send call for a subscribe or an
unsubscribe returns a nonzero result code, the operation raises an error
and leaves the subscription set and the pending-operation map exactly as
they were before the call. -/
theorem send_failure_atomic (st : MqttState) (topic : String) (qos : Nat) :
    (∀ send : String → Nat → Nat × Nat, (send topic qos).1 ≠ 0 →
       dictGet topic st.topics = none →
       async_subscribe send st topic qos = { state := st, sent := true, err := true }) ∧
    (∀ sendU : String → Nat × Nat, (sendU topic).1 ≠ 0 →
       async_unsubscribe sendU st topic = { state := st, sent := true, err := true }) := by
  constructor
  · intro send h hget
    simp [async_subscribe, hget, raise_on_error, h]
  · intro sendU h
    simp [async_unsubscribe, raise_on_error, h]

theorem send_failure_atomic_witness :
    async_subscribe (fun _ _ => (1, 5)) ⟨[], []⟩ "a" 0 =
      { state := ⟨[], []⟩, sent := true, err := true } ∧
    async_unsubscribe (fun _ => (1, 5)) ⟨[], []⟩ "a" =
      { state := ⟨[], []⟩, sent := true, err := true } :=
  ⟨(send_failure_atomic ⟨[], []⟩ "a" 0).1 (fun _ _ => (1, 5)) (by decide) rfl,
   (send_failure_atomic ⟨[], []⟩ "a" 0).2 (fun _ => (1, 5)) (by decide)⟩

/-- Claim C3: a subscribe-acknowledgement whose messageId is not pending
mutates nothing; an acknowledgement for a pending messageId removes the
pending entry and sets the topic's grantedQoS to the first element of the
granted-QoS list, touching no other entry. -/
theorem on_subscribe_ack_spec (st : MqttState) (mid : Nat) (gq : List Nat) :
    (dictGet mid st.progress = none → mqtt_on_subscribe st mid gq = some st) ∧
    (∀ topic q rest, (st.progress.map Prod.fst).Nodup →
       dictGet mid st.progress = some topic → gq = q :: rest →
       ∃ st1, mqtt_on_subscribe st mid gq = some st1 ∧
         dictGet mid st1.progress = none ∧
         dictGet topic st1.topics = some (some q) ∧
         (∀ m, m ≠ mid → dictGet m st1.progress = dictGet m st.progress) ∧
         (∀ t, t ≠ topic → dictGet t st1.topics = dictGet t st.topics)) := by
  constructor
  · intro h
    unfold mqtt_on_subscribe
    rw [dictPop_not_found h]
  · intro topic q rest hnd hget hgq
    subst hgq
    refine ⟨{ topics := dictInsert topic (some q) st.topics,
              progress := (dictPop mid st.progress).2 }, ?_, ?_, ?_, ?_, ?_⟩
    · have hp : (dictPop mid st.progress).1 = some topic :=
        (dictPop_fst mid st.progress).trans hget
      simp [mqtt_on_subscribe, hp]
    · exact dictGet_dictPop_snd_self hnd
    · exact dictGet_dictInsert_self topic (some q) st.topics
    · intro m hm
      exact dictGet_dictPop_snd_ne st.progress hm
    · intro t ht
      exact dictGet_dictInsert_ne (some q) st.topics ht

theorem on_subscribe_ack_spec_witness :
    mqtt_on_subscribe ⟨[("a", none)], [(1, "a")]⟩ 2 [0] =
      some ⟨[("a", none)], [(1, "a")]⟩ ∧
    ∃ st1, mqtt_on_subscribe ⟨[("a", none)], [(1, "a")]⟩ 1 [0] = some st1 ∧
      dictGet 1 st1.progress = none ∧
      dictGet "a" st1.topics = some (some 0) ∧
      (∀ m, m ≠ 1 → dictGet m st1.progress =
        dictGet m (MqttState.progress ⟨[("a", none)], [(1, "a")]⟩)) ∧
      (∀ t, t ≠ "a" → dictGet t st1.topics =
        dictGet t (MqttState.topics ⟨[("a", none)], [(1, "a")]⟩)) :=
  ⟨(on_subscribe_ack_spec ⟨[("a", none)], [(1, "a")]⟩ 2 [0]).1 (by decide),
   (on_subscribe_ack_spec ⟨[("a", none)], [(1, "a")]⟩ 1 [0]).2 "a" 0 []
     (by decide) (by decide) rfl⟩

/-- Claim C4: subscribe is idempotent per topic: a topic that already has
any record (pending or confirmed) makes the call a no-op that sends
nothing, and two successive subscribe calls on a fresh topic with no
intervening disconnect send exactly one request and record exactly one
pending operation. -/
theorem subscribe_idempotent (send : String → Nat → Nat × Nat)
    (st : MqttState) (topic : String) (qos : Nat) :
    (∀ v, dictGet topic st.topics = some v →
       async_subscribe send st topic qos =
         { state := st, sent := false, err := false }) ∧
    (∀ mid, dictGet topic st.topics = none → send topic qos = (0, mid) →
       dictGet mid st.progress = none →
       (async_subscribe send st topic qos).sent = true ∧
       (async_subscribe send st topic qos).err = false ∧
       (async_subscribe send st topic qos).state.topics =
         dictInsert topic none st.topics ∧
       (async_subscribe send st topic qos).state.progress =
         st.progress ++ [(mid, topic)] ∧
       async_subscribe send (async_subscribe send st topic qos).state topic qos =
         { state := (async_subscribe send st topic qos).state,
           sent := false, err := false }) := by
  constructor
  · intro v h
    simp [async_subscribe, h]
  · intro mid hget hsend hmid
    have hstep : async_subscribe send st topic qos =
        { state := { topics := dictInsert topic none st.topics,
                     progress := dictInsert mid topic st.progress },
          sent := true, err := false } := by
      simp [async_subscribe, hget, hsend, raise_on_error]
    rw [hstep]
    refine ⟨rfl, rfl, rfl, ?_, ?_⟩
    · exact dictInsert_fresh topic hmid
    · simp [async_subscribe, dictGet_dictInsert_self]

theorem subscribe_idempotent_witness :
    async_subscribe (fun _ _ => (0, 5)) ⟨[("b", some 1)], []⟩ "b" 0 =
      { state := ⟨[("b", some 1)], []⟩, sent := false, err := false } ∧
    (async_subscribe (fun _ _ => (0, 5)) ⟨[("b", some 1)], []⟩ "a" 0).sent = true ∧
    (async_subscribe (fun _ _ => (0, 5)) ⟨[("b", some 1)], []⟩ "a" 0).err = false ∧
    (async_subscribe (fun _ _ => (0, 5)) ⟨[("b", some 1)], []⟩ "a" 0).state.topics =
      dictInsert "a" none (MqttState.topics ⟨[("b", some 1)], []⟩) ∧
    (async_subscribe (fun _ _ => (0, 5)) ⟨[("b", some 1)], []⟩ "a" 0).state.progress =
      MqttState.progress ⟨[("b", some 1)], []⟩ ++ [(5, "a")] ∧
    async_subscribe (fun _ _ => (0, 5))
        (async_subscribe (fun _ _ => (0, 5)) ⟨[("b", some 1)], []⟩ "a" 0).state "a" 0 =
      { state := (async_subscribe (fun _ _ => (0, 5)) ⟨[("b", some 1)], []⟩ "a" 0).state,
        sent := false, err := false } :=
  have h := subscribe_idempotent (fun _ _ => (0, 5)) ⟨[("b", some 1)], []⟩ "a" 0
  have h2 := h.2 5 (by decide) rfl (by decide)
  ⟨(subscribe_idempotent (fun _ _ => (0, 5)) ⟨[("b", some 1)], []⟩ "b" 0).1
     (some 1) (by decide),
   h2.1, h2.2.1, h2.2.2.1, h2.2.2.2.1, h2.2.2.2.2⟩

/-! ## Topic-matcher characterization lemmas -/

theorem take_length_add_one_append (xs : List Char) (a : Char) (ys : List Char) :
    (xs ++ a :: ys).take (xs.length + 1) = xs ++ [a] := by
  induction xs with
  | nil => rfl
  | cons x xs ih =>
      simp only [List.cons_append, List.length_cons, List.take_succ_cons, ih]

theorem pyDropRight_hash2 (xs : List Char) :
    pyDropRight (xs ++ ['/', '#']) 2 = xs := by
  unfold pyDropRight
  rw [List.length_append]
  simp only [List.length_cons, List.length_nil, Nat.zero_add]
  rw [Nat.add_sub_cancel]
  exact List.take_left xs _

theorem pyDropRight_hash1 (xs : List Char) :
    pyDropRight (xs ++ ['/', '#']) 1 = xs ++ ['/'] := by
  unfold pyDropRight
  rw [List.length_append]
  simp only [List.length_cons, List.length_nil, Nat.zero_add]
  have h2 : xs.length + 2 - 1 = xs.length + 1 := by omega
  rw [h2]
  exact take_length_add_one_append xs '/' ['#']

theorem match_topic_hash_iff (pre topic : String) :
    match_topic (pre ++ "/#") topic = true ↔
      (topic = pre ∨ (pre ++ "/").data <+: topic.data) := by
  have hd : (pre ++ "/#").data = pre.data ++ ['/', '#'] := by
    rw [String.data_append]
  have hd2 : (pre ++ "/").data = pre.data ++ ['/'] := by
    rw [String.data_append]
  have hsuf : List.isSuffixOf ['#'] (pre.data ++ ['/', '#']) = true := by
    rw [List.isSuffixOf_iff_suffix]
    exact ⟨pre.data ++ ['/'], by simp⟩
  have hTP : (topic = pre) ↔ (pre.data = topic.data) := by
    rw [String.ext_iff]
    exact eq_comm
  unfold match_topic matchTopicChars
  rw [hd, if_pos hsuf, pyDropRight_hash2, pyDropRight_hash1, hd2, hTP]
  simp [List.isPrefixOf_iff_prefix]

theorem match_topic_no_hash_iff (pattern topic : String)
    (h : List.isSuffixOf ['#'] pattern.data = false) :
    match_topic pattern topic = true ↔
      ((pySplit '/' pattern.data).length = (pySplit '/' topic.data).length ∧
       ∀ ab ∈ (pySplit '/' pattern.data).zip (pySplit '/' topic.data),
         ab.1 = ['+'] ∨ ab.1 = ab.2) := by
  unfold match_topic matchTopicChars
  rw [if_neg (by simp [h])]
  simp [List.all_eq_true]

/-- Claim C8: for every pattern of the form prefix followed by the final
wildcard segment /#, the matcher accepts a topic iff the topic equals the
prefix or starts with the prefix followed by /; for every pattern not
ending in #, the matcher accepts iff the two strings split on / into
equally many segments and every pattern segment is + or equals the
corresponding topic segment (an empty pattern segment hence matching only
an empty topic segment). -/
theorem match_topic_characterization :
    (∀ pre topic : String,
       match_topic (pre ++ "/#") topic = true ↔
         (topic = pre ∨ (pre ++ "/").data <+: topic.data)) ∧
    (∀ pattern topic : String, List.isSuffixOf ['#'] pattern.data = false →
       (match_topic pattern topic = true ↔
         ((pySplit '/' pattern.data).length = (pySplit '/' topic.data).length ∧
          ∀ ab ∈ (pySplit '/' pattern.data).zip (pySplit '/' topic.data),
            ab.1 = ['+'] ∨ ab.1 = ab.2))) :=
  ⟨match_topic_hash_iff, match_topic_no_hash_iff⟩

theorem match_topic_characterization_witness :
    match_topic ("a" ++ "/#") "a/b/c" = true ∧
    match_topic "a/+/c" "a/b/c" = true :=
  ⟨(match_topic_characterization.1 "a" "a/b/c").mpr (Or.inr (by decide)),
   (match_topic_characterization.2 "a/+/c" "a/b/c" (by decide)).mpr (by decide)⟩

/-! ## Resubscription lemmas -/

theorem resub_jobs_keys_sublist (l : List (String × Option Nat)) :
    ((l.filterMap (fun kv => match kv.2 with
       | some q => some (kv.1, q)
       | none => none)).map Prod.fst).Sublist (l.map Prod.fst) := by
  induction l with
  | nil => exact List.Sublist.refl _
  | cons kv rest ih =>
      obtain ⟨k, v⟩ := kv
      cases v with
      | none =>
          show ((rest.filterMap _).map Prod.fst).Sublist (k :: rest.map Prod.fst)
          exact ih.cons k
      | some q =>
          show (k :: (rest.filterMap _).map Prod.fst).Sublist (k :: rest.map Prod.fst)
          exact ih.cons₂ k

theorem resub_jobs_mem {l : List (String × Option Nat)} {t : String} {q : Nat}
    (h : (t, some q) ∈ l) :
    (t, q) ∈ l.filterMap (fun kv => match kv.2 with
      | some qq => some (kv.1, qq)
      | none => none) :=
  List.mem_filterMap.mpr ⟨(t, some q), h, rfl⟩

theorem run_resubscribes_spec (send : String → Nat → Nat × Nat)
    (hsend : ∀ t q, (send t q).1 = 0) :
    ∀ (jobs : List (String × Nat)) (st0 : MqttState),
      (jobs.map Prod.fst).Nodup →
      (∀ tq ∈ jobs, dictGet tq.1 st0.topics = none) →
      (run_resubscribes send st0 jobs).2 = jobs.map Prod.fst ∧
      (∀ tq ∈ jobs,
         dictGet tq.1 (run_resubscribes send st0 jobs).1.topics = some none) ∧
      (∀ t, t ∉ jobs.map Prod.fst →
         dictGet t (run_resubscribes send st0 jobs).1.topics =
           dictGet t st0.topics) := by
  intro jobs
  induction jobs with
  | nil =>
      intro st0 _ _
      refine ⟨rfl, ?_, fun t _ => rfl⟩
      intro tq h
      simp at h
  | cons job rest ih =>
      intro st0 hnd habs
      obtain ⟨t, q⟩ := job
      simp only [List.map_cons, List.nodup_cons] at hnd
      have ht0 : dictGet t st0.topics = none :=
        habs (t, q) (List.mem_cons_self _ _)
      have hstep : async_subscribe send st0 t q =
          { state := { topics := dictInsert t none st0.topics,
                       progress := dictInsert (send t q).2 t st0.progress },
            sent := true, err := false } := by
        simp [async_subscribe, ht0, raise_on_error, hsend t q]
      have hrest : ∀ tq ∈ rest,
          dictGet tq.1 (MqttState.topics
            { topics := dictInsert t none st0.topics,
              progress := dictInsert (send t q).2 t st0.progress }) = none := by
        intro tq htq
        have hne : tq.1 ≠ t := by
          intro he
          exact hnd.1 (he ▸ List.mem_map_of_mem Prod.fst htq)
        show dictGet tq.1 (dictInsert t none st0.topics) = none
        rw [dictGet_dictInsert_ne none st0.topics hne]
        exact habs tq (List.mem_cons_of_mem _ htq)
      have hih := ih { topics := dictInsert t none st0.topics,
                       progress := dictInsert (send t q).2 t st0.progress }
        hnd.2 hrest
      have hrun : run_resubscribes send st0 ((t, q) :: rest) =
          ((run_resubscribes send
              { topics := dictInsert t none st0.topics,
                progress := dictInsert (send t q).2 t st0.progress } rest).1,
           t :: (run_resubscribes send
              { topics := dictInsert t none st0.topics,
                progress := dictInsert (send t q).2 t st0.progress } rest).2) := by
        simp [run_resubscribes, hstep]
      rw [hrun]
      refine ⟨?_, ?_, ?_⟩
      · simp only [List.map_cons]
        rw [hih.1]
      · intro tq htq
        rcases List.mem_cons.mp htq with he | hm
        · subst he
          rw [hih.2.2 t hnd.1]
          exact dictGet_dictInsert_self t none st0.topics
        · exact hih.2.1 tq hm
      · intro t1 ht1
        simp only [List.map_cons, List.mem_cons] at ht1
        push_neg at ht1
        rw [hih.2.2 t1 ht1.2]
        exact dictGet_dictInsert_ne none st0.topics ht1.1

/-- Claim C1: after a disconnect (any reason code) followed by a
successful reconnect (the on-connect callback firing with result code 0),
every topic whose subscription had a confirmed grantedQoS before the
disconnect is re-issued as a subscribe request exactly once, through the
normal subscribe path, which leaves it recorded as pending with
grantedQoS absent until a new acknowledgement arrives. -/
theorem resubscribe_after_reconnect (st : MqttState)
    (send : String → Nat → Nat × Nat) (rc : Nat) (outcomes : List Bool)
    (hnd : (st.topics.map Prod.fst).Nodup)
    (hsend : ∀ t q, (send t q).1 = 0) (topic : String) (q : Nat)
    (hq : dictGet topic st.topics = some (some q)) :
    (run_resubscribes send
       (mqtt_on_connect (mqtt_on_disconnect st rc outcomes).state 0).1
       (mqtt_on_connect (mqtt_on_disconnect st rc outcomes).state 0).2).2.count topic = 1 ∧
    dictGet topic
      (run_resubscribes send
        (mqtt_on_connect (mqtt_on_disconnect st rc outcomes).state 0).1
        (mqtt_on_connect (mqtt_on_disconnect st rc outcomes).state 0).2).1.topics =
      some none := by
  rw [mqtt_on_disconnect_state_eq]
  have hcleanup : (mqtt_on_disconnect_cleanup st).topics =
      (st.topics.filter (fun kv => kv.2.isSome)).filter (fun kv => kv.2.isSome) := rfl
  have hT1nd : ((mqtt_on_disconnect_cleanup st).topics.map Prod.fst).Nodup := by
    rw [hcleanup]
    exact keys_filter_nodup _ (keys_filter_nodup _ hnd)
  have hT1some : ∀ kv ∈ (mqtt_on_disconnect_cleanup st).topics, kv.2.isSome = true := by
    intro kv hkv
    rw [hcleanup] at hkv
    exact (List.mem_filter.mp hkv).2
  have hconn : mqtt_on_connect (mqtt_on_disconnect_cleanup st) 0 =
      ({ (mqtt_on_disconnect_cleanup st) with
          topics := (mqtt_on_disconnect_cleanup st).topics.filter
            (fun kv => kv.2.isNone) },
       (mqtt_on_disconnect_cleanup st).topics.filterMap (fun kv =>
         match kv.2 with
         | some qq => some (kv.1, qq)
         | none => none)) := by
    simp [mqtt_on_connect]
  have hnil : (mqtt_on_disconnect_cleanup st).topics.filter
      (fun kv => kv.2.isNone) = [] := by
    apply List.filter_eq_nil_iff.mpr
    intro kv hkv
    have h1 := hT1some kv hkv
    cases h2 : kv.2 with
    | none => rw [h2] at h1; simp at h1
    | some x => simp [h2]
  have hjnd : (((mqtt_on_disconnect_cleanup st).topics.filterMap (fun kv =>
      match kv.2 with
      | some qq => some (kv.1, qq)
      | none => none)).map Prod.fst).Nodup :=
    hT1nd.sublist (resub_jobs_keys_sublist (mqtt_on_disconnect_cleanup st).topics)
  have hgetT1 : dictGet topic (mqtt_on_disconnect_cleanup st).topics =
      some (some q) := by
    rw [cleanup_topics_get st hnd topic, hq]
    rfl
  have hmemjob : (topic, q) ∈ (mqtt_on_disconnect_cleanup st).topics.filterMap
      (fun kv => match kv.2 with
        | some qq => some (kv.1, qq)
        | none => none) :=
    resub_jobs_mem (dictGet_some_mem hgetT1)
  have hspec := run_resubscribes_spec send hsend
    ((mqtt_on_disconnect_cleanup st).topics.filterMap (fun kv =>
      match kv.2 with
      | some qq => some (kv.1, qq)
      | none => none))
    { (mqtt_on_disconnect_cleanup st) with
        topics := (mqtt_on_disconnect_cleanup st).topics.filter
          (fun kv => kv.2.isNone) }
    hjnd
    (by
      intro tq htq
      show dictGet tq.1 ((mqtt_on_disconnect_cleanup st).topics.filter
        (fun kv => kv.2.isNone)) = none
      rw [hnil]
      rfl)
  rw [hconn]
  constructor
  · rw [hspec.1]
    exact List.count_eq_one_of_mem hjnd (List.mem_map_of_mem Prod.fst hmemjob)
  · exact hspec.2.1 (topic, q) hmemjob

theorem resubscribe_after_reconnect_witness :
    (run_resubscribes (fun _ _ => (0, 3))
       (mqtt_on_connect (mqtt_on_disconnect
          ⟨[("a", some 1), ("b", none)], [(7, "b")]⟩ 7 []).state 0).1
       (mqtt_on_connect (mqtt_on_disconnect
          ⟨[("a", some 1), ("b", none)], [(7, "b")]⟩ 7 []).state 0).2).2.count "a" = 1 ∧
    dictGet "a"
      (run_resubscribes (fun _ _ => (0, 3))
        (mqtt_on_connect (mqtt_on_disconnect
           ⟨[("a", some 1), ("b", none)], [(7, "b")]⟩ 7 []).state 0).1
        (mqtt_on_connect (mqtt_on_disconnect
           ⟨[("a", some 1), ("b", none)], [(7, "b")]⟩ 7 []).state 0).2).1.topics =
      some none :=
  resubscribe_after_reconnect ⟨[("a", some 1), ("b", none)], [(7, "b")]⟩
    (fun _ _ => (0, 3)) 7 [] (by decide) (fun _ _ => rfl) "a" 1 (by decide)

end MqttVerify
